import Mathlib

/-!
# Verification of the numeric display formatter

Shallow embedding of `packages/formatter.py`: the scalar simplifier
`_nsimplify_improved`, the array renderer `_nsimplify_matrix`, the scalar
renderer `_nsimplify_scalar` and the display handlers registered by
`_apply_nsimplify`.

Modelling choices:
* Python floats are embedded as exact rationals (`Rat`); every IEEE double is
  a rational number, and the formatter's own arithmetic on them (`abs`,
  subtraction, comparison) is exact on the values it receives.
* The external symbolic library call `nsimplify(value, allowed_symbolic)`
  together with the numeric re-evaluation `float(N(candidate))` is an
  external oracle, passed in as a parameter of type `Rat → Option Candidate`;
  `none` models the call raising an exception (caught by the enclosing
  `try`/`except`).  A `Candidate` records exactly the attributes of the
  returned SymPy expression that the formatter's validation gates inspect.
* Exceptions are modelled by `Option`: an operation that can raise returns
  `none` where Python raises, and the `try`/`except` blocks of the source
  become explicit `match`es on `Option`.
* `latex(e)` does not raise on the expressions produced here and is modelled
  as the identity on the abstract expression; a rendered "string" is the
  abstract expression / grid itself.
-/

namespace Formatter

/-- Attributes of the SymPy expression returned by
`nsimplify(value, allowed_symbolic)` that `_nsimplify_improved` inspects:
`float(N(candidate))` (as an exact rational), `candidate.is_Rational`,
its numerator `p` and reduced denominator `q` (meaningful when
`is_Rational`), `candidate.as_numer_denom()[1].has(*allowed_symbolic)` and
`candidate.has(*allowed_symbolic)`. -/
structure Candidate where
  evalF : Rat
  is_Rational : Bool
  p : Int
  q : Nat
  denomHasAllowed : Bool
  hasAllowed : Bool
deriving DecidableEq

/-- Symbolic expressions returned by the scalar simplifier:
`Integer(0)` from the near-zero snap, an accepted candidate from the
symbolic search, the decimal fallback `N(value, sig_digits)`, or
`real + imag*I` assembled in the complex branch. -/
inductive SimpResult where
  | exprZ : SimpResult
  | cand (c : Candidate) : SimpResult
  | decimal (v : Rat) (k : Nat) : SimpResult
  | complexSum (re im : SimpResult) : SimpResult
deriving DecidableEq

/-- A Python number as received by `_nsimplify_improved`: the constructor
records the runtime type (`np.iscomplexobj` is a type test, not a value
test), the fields the numeric value. -/
inductive PyNum where
  | real (v : Rat) : PyNum
  | cplx (re im : Rat) : PyNum
deriving DecidableEq

/-- The builtin `complex(x)`: coercion to the Python complex type. -/
def PyNum.toCplx : PyNum → PyNum
  | .real v => .cplx v 0
  | c => c

/-- Real part of the number (`value.real`). -/
def PyNum.re : PyNum → Rat
  | .real v => v
  | .cplx r _ => r

/-- Imaginary part of the number (`value.imag`). -/
def PyNum.im : PyNum → Rat
  | .real _ => 0
  | .cplx _ i => i

/-- SymPy structural equality test `e == 0` for the expressions produced
here: `Integer(0)` is zero, a rational candidate with zero numerator is
zero, the decimal `N(v, k)` is zero only for `v = 0` (rounding to
significant digits never sends a nonzero value to zero), and a sum
`real + imag*I` with both parts nonzero is structurally nonzero. -/
def SimpResult.isZero : SimpResult → Bool
  | .exprZ => true
  | .cand c => c.is_Rational && c.p == 0
  | .decimal v _ => v == 0
  | .complexSum _ _ => false

/-- Module-level default `ZERO_TOL = 1e-15`. -/
def ZERO_TOL : Rat := mkRat 1 (10 ^ 15)

/-- Module-level default `MAX_DENOM = 10_000`. -/
def MAX_DENOM : Nat := 10000

/-- Module-level default `SIG_DIGITS = 4`. -/
def SIG_DIGITS : Nat := 4

/-- Module-level default `TRUNCATE_TO = (6, 6)`. -/
def TRUNCATE_TO : Nat × Nat := (6, 6)

/-- The Python builtin `abs` on a real float. -/
def pyAbs (q : Rat) : Rat := if q < 0 then -q else q

/-- The function `pyAbs` is the absolute value. -/
theorem pyAbs_eq_abs (q : Rat) : pyAbs q = |q| := by
  rw [pyAbs]
  split
  · rename_i h
    rw [abs_of_neg h]
  · rename_i h
    rw [abs_of_nonneg (not_lt.mp h)]

/-- The real(`float`/`int`)-input body of `_nsimplify_improved`: the
near-zero snap, then the `try` block around the symbolic search
(`oracle`, whose `none` models `nsimplify`/`float(N(·))` raising) and the
four validation gates, each falling back to `N(value, sig_digits)`.
The complex branch of the source recurses on `value.real` and
`value.imag`, which are floats, so the recursion depth is one and the
real body can be split out as its own function. -/
def _nsimplify_real (oracle : Rat → Option Candidate) (zero_tol : Rat)
    (max_denom : Nat) (sig_digits : Nat) (value : Rat) : SimpResult :=
  if pyAbs value < zero_tol then
    .exprZ
  else
    match oracle value with
    | none => .decimal value sig_digits
    | some candidate =>
      if zero_tol < pyAbs (candidate.evalF - value) then .decimal value sig_digits
      else if candidate.is_Rational ∧ max_denom < candidate.q then .decimal value sig_digits
      else if candidate.denomHasAllowed then .decimal value sig_digits
      else if ¬candidate.hasAllowed ∧ ¬candidate.is_Rational then .decimal value sig_digits
      else .cand candidate

/-- The simplifier `_nsimplify_improved`: complex decomposition (guarded by the type test
`np.iscomplexobj(value)`), near-zero snap, symbolic search and validation
gates. -/
def _nsimplify_improved (oracle : Rat → Option Candidate) (zero_tol : Rat)
    (max_denom : Nat) (sig_digits : Nat) : PyNum → SimpResult
  | .real v => _nsimplify_real oracle zero_tol max_denom sig_digits v
  | .cplx r i =>
    let real := _nsimplify_real oracle zero_tol max_denom sig_digits r
    let imag := _nsimplify_real oracle zero_tol max_denom sig_digits i
    if imag.isZero then real
    else if real.isZero then imag
    else .complexSum real imag

/-- The scalar renderer `_nsimplify_scalar`: `latex(_nsimplify_improved(value))` inside
`try`/`except` returning `None`; `latex` (modelled as the identity) does
not raise on these expressions, so the result is always `some`. -/
def _nsimplify_scalar (oracle : Rat → Option Candidate) (zero_tol : Rat)
    (max_denom : Nat) (sig_digits : Nat) (value : PyNum) : Option SimpResult :=
  some (_nsimplify_improved oracle zero_tol max_denom sig_digits value)

/-- Numeric evaluation of a returned expression, as a complex number
(pair of rationals); candidates produced by `nsimplify` on a real float
are real expressions, and the decimal fallback's numeric value is not
modelled (`none`). -/
def SimpResult.evalC : SimpResult → Option (Rat × Rat)
  | .exprZ => some (0, 0)
  | .cand c => some (c.evalF, 0)
  | .decimal _ _ => none
  | .complexSum re im =>
    match re.evalC, im.evalC with
    | some (a, b), some (c, d) => some (a - d, b + c)
    | _, _ => none

/-- The returned expression evaluates numerically within `tol` of the
input `v` (squared complex modulus against the square of `tol`). -/
def evalWithin (r : SimpResult) (v : PyNum) (tol : Rat) : Prop :=
  ∃ p : Rat × Rat, r.evalC = some p ∧
    (p.1 - v.re) * (p.1 - v.re) + (p.2 - v.im) * (p.2 - v.im) ≤ tol * tol

/-- The `k`-significant-digit decimal rounding `N(v, k)` of an input, as
an expression: for a complex input, both components are rounded. -/
def decimalRounding (v : PyNum) (k : Nat) : SimpResult :=
  match v with
  | .real u => .decimal u k
  | .cplx a b => .complexSum (.decimal a k) (.decimal b k)

/-- Statement of claim C1 at one input: the returned expression is within
the tolerance of the input, or is the decimal rounding of the input. -/
def C1Statement (oracle : Rat → Option Candidate) (zero_tol : Rat)
    (max_denom : Nat) (sig_digits : Nat) (v : PyNum) : Prop :=
  evalWithin (_nsimplify_improved oracle zero_tol max_denom sig_digits v) v zero_tol ∨
  _nsimplify_improved oracle zero_tol max_denom sig_digits v =
    decimalRounding v sig_digits

/-- A concrete oracle used in counterexamples and witnesses: recognizes
the float `2.0` as the SymPy `Integer(2)` (exactly what
`nsimplify(2.0, [pi, E])` returns) and raises on everything else. -/
def oracleTwo : Rat → Option Candidate := fun v =>
  if v = 2 then some ⟨2, true, 2, 1, false, false⟩ else none

/-! ## The array renderer -/

/-- A cell of a rendered matrix: a simplified numeric entry, or one of the
layout `Symbol`s (`EMPTY_STR`, `V_ROWS`, `H_ROWS`, `D_ROWS`). -/
inductive Cell where
  | num (e : SimpResult) : Cell
  | sym (s : String) : Cell
deriving DecidableEq

/-- Source constant `EMPTY_STR = Symbol(r"")`. -/
def EMPTY_STR : Cell := .sym ""

/-- Source constant `V_ROWS = Symbol(r"\vdots")`. -/
def V_ROWS : Cell := .sym "\\vdots"

/-- Source constant `H_ROWS = Symbol(r"\cdots")`. -/
def H_ROWS : Cell := .sym "\\cdots"

/-- Source constant `D_ROWS = Symbol(r"\ddots")`. -/
def D_ROWS : Cell := .sym "\\ddots"

/-- The data of a NumPy array, by dimensionality.  Arrays of dimension
greater than two are represented by their shape alone: the renderer
rejects them before looking at any element. -/
inductive ArrData where
  | d0 (x : PyNum) : ArrData
  | d1 (xs : List PyNum) : ArrData
  | d2 (xss : List (List PyNum)) : ArrData
  | dHigher (shape : List Nat) : ArrData
deriving DecidableEq

/-- A NumPy array: its dtype kind (`array.dtype.kind in {'U', 'S', 'O'}`,
i.e. string/bytes/object dtype) and its data. -/
structure NdArray where
  strDtype : Bool
  data : ArrData
deriving DecidableEq

/-- NumPy `array.ndim`. -/
def NdArray.ndim (a : NdArray) : Nat :=
  match a.data with
  | .d0 _ => 0
  | .d1 _ => 1
  | .d2 _ => 2
  | .dHigher s => s.length

/-- NumPy `array.size` (for a 2-D array, NumPy arrays are rectangular, so the
size is the row count times the common row length). -/
def NdArray.size (a : NdArray) : Nat :=
  match a.data with
  | .d0 _ => 1
  | .d1 xs => xs.length
  | .d2 xss => xss.length * (xss.headD []).length
  | .dHigher s => s.prod

/-- The result of a render: the latex of a scalar expression (0-D case)
or of a matrix of cells; the string itself is modelled by the abstract
expression/grid it typesets. -/
inductive Render where
  | scalarR (e : SimpResult) : Render
  | gridR (g : List (List Cell)) : Render
deriving DecidableEq

/-- Python/NumPy indexing of a list by a possibly negative index
(`-1` addresses the last element); out of range raises (`none`). -/
def pyIx (xs : List α) (i : Int) : Option α :=
  if 0 ≤ i then xs[i.toNat]?
  else if (-i).toNat ≤ xs.length then xs[xs.length - (-i).toNat]?
  else none

/-- Sequential elementwise application with exception propagation, as in
`array[np.ix_(rows)]`: the first failing index aborts the whole
operation. -/
def mapO (f : α → Option β) : List α → Option (List β)
  | [] => some []
  | a :: l =>
    match f a, mapO f l with
    | some b, some bs => some (b :: bs)
    | _, _ => none

/-- The truncation index list
`[i for i in range(m - 1)] + [-1]` (used for both `rows` and `cols`). -/
def ixIndices (m : Nat) : List Int :=
  (List.range (m - 1)).map Int.ofNat ++ [-1]

/-- SymPy's clamping of an insertion position into `[0, n]`: a negative
position counts from the end (clamped below at `0`), a positive one is
clamped above at `n`. -/
def insertPos (pos : Int) (n : Nat) : Nat :=
  if pos < 0 then n - (-pos).toNat else min pos.toNat n

/-- SymPy `Matrix.row_insert(pos, other)`: raises `ShapeError` when the
column counts differ, clamps `pos` into range (negative positions count
from the end), and splices the rows of `other` in at `pos`. -/
def rowInsertM (g : List (List Cell)) (pos : Int) (other : List (List Cell)) :
    Option (List (List Cell)) :=
  if (other.headD []).length ≠ (g.headD []).length then none
  else some (g.take (insertPos pos g.length) ++ other ++ g.drop (insertPos pos g.length))

/-- SymPy `Matrix.col_insert(pos, other)` for a single-column `other`
(given as the list of its entries): raises `ShapeError` when the row
counts differ, clamps `pos` into the column range, and splices one entry
into each row at `pos`. -/
def colInsertM (g : List (List Cell)) (pos : Int) (col : List Cell) :
    Option (List (List Cell)) :=
  if col.length ≠ g.length then none
  else some (List.zipWith
    (fun row x => row.take (insertPos pos (g.headD []).length) ++ [x] ++
      row.drop (insertPos pos (g.headD []).length)) g col)

/-- The `applyfunc` lambda `lambda x: _nsimplify_improved(complex(x))`
as a cell constructor. -/
def cellOf (oracle : Rat → Option Candidate) (zero_tol : Rat)
    (max_denom : Nat) (sig_digits : Nat) (x : PyNum) : Cell :=
  .num (_nsimplify_improved oracle zero_tol max_denom sig_digits x.toCplx)

/-- The array renderer `_nsimplify_matrix`: guards for empty/string-dtype/high-dimensional
arrays, 0-D delegation to `_nsimplify_scalar`, 1-D and 2-D truncated
layouts (each in a `try`/`except` returning `None`, modelled by the
`Option` plumbing), and the full-grid fallthrough.  The `dHigher` arm is
unreachable: such arrays have `ndim > 2` and are rejected by the guard. -/
def _nsimplify_matrix (oracle : Rat → Option Candidate) (zero_tol : Rat)
    (max_denom : Nat) (sig_digits : Nat) (array : NdArray)
    (truncate_to : Nat × Nat) : Option Render :=
  if array.size = 0 then none
  else if array.strDtype then none
  else if 2 < array.ndim then none
  else
    let max_cols := truncate_to.1
    let max_rows := truncate_to.2
    let rows := ixIndices max_rows
    let cols := ixIndices max_cols
    let cell := cellOf oracle zero_tol max_denom sig_digits
    match array.data with
    | .d0 x =>
      (_nsimplify_scalar oracle zero_tol max_denom sig_digits x).map .scalarR
    | .d1 xs =>
      if max_rows < xs.length then
        match mapO (pyIx xs) rows with
        | none => none
        | some sel =>
          (rowInsertM (sel.map fun x => [cell x]) ((max_rows : Int) - 1)
            [[V_ROWS]]).map .gridR
      else some (.gridR (xs.map fun x => [cell x]))
    | .d2 xss =>
      if max_cols < xss.length ∧ max_rows < (xss.headD []).length then
        match mapO (pyIx xss) rows with
        | none => none
        | some rsel =>
          match mapO (fun r => mapO (pyIx r) cols) rsel with
          | none => none
          | some sub =>
            match rowInsertM (sub.map fun r => r.map cell) ((max_rows : Int) - 1)
                [[EMPTY_STR, EMPTY_STR, V_ROWS, EMPTY_STR, EMPTY_STR, EMPTY_STR]] with
            | none => none
            | some M2 =>
              (colInsertM M2 ((max_cols : Int) - 1)
                [EMPTY_STR, EMPTY_STR, H_ROWS, EMPTY_STR, EMPTY_STR, D_ROWS, EMPTY_STR]).map
                .gridR
      else some (.gridR (xss.map fun r => r.map cell))
    | .dHigher _ => none

/-! ## The display handlers (`_apply_nsimplify` registration) -/

/-- The value of the f-string `f"${x}$"`: a typeset string wrapped in
math-mode delimiters whose payload between the dollar signs is `str(x)`.
When `x` is Python `None` the payload is the text `None` — the wrapper is
still a string, not a null result. -/
structure MathWrapped where
  payload : Option Render
deriving DecidableEq

/-- The handler registered for `np.ndarray`:
`lambda obj: f"${_nsimplify_matrix(obj)}$"`.  An `Option MathWrapped`
models the registration contract "a string or `None`"; this lambda always
returns a string. -/
def ndarray_handler (oracle : Rat → Option Candidate) (zero_tol : Rat)
    (max_denom : Nat) (sig_digits : Nat) (truncate_to : Nat × Nat)
    (a : NdArray) : Option MathWrapped :=
  some ⟨_nsimplify_matrix oracle zero_tol max_denom sig_digits a truncate_to⟩

/-- The handler registered for the numeric scalar types:
`lambda obj: f"${_nsimplify_scalar(obj)}$"`. -/
def scalar_display_handler (oracle : Rat → Option Candidate) (zero_tol : Rat)
    (max_denom : Nat) (sig_digits : Nat) (v : PyNum) : Option MathWrapped :=
  some ⟨(_nsimplify_scalar oracle zero_tol max_denom sig_digits v).map .scalarR⟩

/-! ## Lemmas about indexing and selection -/

theorem pyIx_ofNat (xs : List α) (n : Nat) (h : n < xs.length) :
    pyIx xs (Int.ofNat n) = some xs[n] := by
  simp [pyIx, List.getElem?_eq_getElem h]

theorem pyIx_neg_one (xs : List α) (d : α) (h : xs ≠ []) :
    pyIx xs (-1) = some (xs.getLastD d) := by
  have hlen : 1 ≤ xs.length := List.length_pos.mpr h
  have h0 : ¬ (0 : Int) ≤ -1 := by decide
  have h1 : ((-(-1 : Int)).toNat) = 1 := by decide
  rw [pyIx, if_neg h0, h1, if_pos hlen, ← List.getLast?_eq_getElem?,
    List.getLast?_eq_getLast _ h, List.getLastD_eq_getLast? _ _,
    List.getLast?_eq_getLast _ h, Option.getD_some]

theorem pyIx_mem {xs : List α} {i : Int} {a : α} (h : pyIx xs i = some a) :
    a ∈ xs := by
  rw [pyIx] at h
  split at h
  · exact List.getElem?_mem h
  · split at h
    · exact List.getElem?_mem h
    · exact absurd h (by simp)

theorem getLastD_mem (xs : List α) (d : α) (h : xs ≠ []) : xs.getLastD d ∈ xs := by
  rw [List.getLastD_eq_getLast? _ _, List.getLast?_eq_getLast _ h, Option.getD_some]
  exact List.getLast_mem h

theorem mapO_length {f : α → Option β} :
    ∀ {l : List α} {l' : List β}, mapO f l = some l' → l'.length = l.length := by
  intro l
  induction l with
  | nil => intro l' h; simp [mapO] at h; simp [← h]
  | cons a t ih =>
    intro l' h
    rw [mapO] at h
    cases hfa : f a with
    | none => rw [hfa] at h; exact absurd h (by simp)
    | some b =>
      cases hft : mapO f t with
      | none => rw [hfa, hft] at h; exact absurd h (by simp)
      | some bs =>
        rw [hfa, hft] at h
        cases h
        simp [ih hft]

theorem mapO_cons_some {f : α → Option β} {a : α} {l : List α} {l' : List β}
    (h : mapO f (a :: l) = some l') :
    ∃ b bs, f a = some b ∧ mapO f l = some bs ∧ l' = b :: bs := by
  rw [mapO] at h
  cases hfa : f a with
  | none => rw [hfa] at h; exact absurd h (by simp)
  | some b =>
    cases hft : mapO f l with
    | none => rw [hfa, hft] at h; exact absurd h (by simp)
    | some bs =>
      rw [hfa, hft] at h
      cases h
      exact ⟨b, bs, rfl, rfl, rfl⟩

theorem mapO_append {f : α → Option β} {l₁ l₂ : List α} {b₁ b₂ : List β}
    (h₁ : mapO f l₁ = some b₁) (h₂ : mapO f l₂ = some b₂) :
    mapO f (l₁ ++ l₂) = some (b₁ ++ b₂) := by
  induction l₁ generalizing b₁ with
  | nil =>
    simp [mapO] at h₁
    subst h₁
    simpa using h₂
  | cons a t ih =>
    obtain ⟨b, bs, hfa, hft, rfl⟩ := mapO_cons_some h₁
    simp only [List.cons_append, mapO, hfa, List.append_eq, ih hft]

theorem mapO_eq_map {f : α → Option β} {g : α → β} :
    ∀ {l : List α}, (∀ x ∈ l, f x = some (g x)) → mapO f l = some (l.map g) := by
  intro l
  induction l with
  | nil => intro _; rfl
  | cons a t ih =>
    intro h
    have ha := h a (by simp)
    have ht := ih (fun x hx => h x (by simp [hx]))
    simp only [mapO, ha, ht, List.map_cons]

theorem mapO_singleton {f : α → Option β} {a : α} {b : β} (h : f a = some b) :
    mapO f [a] = some [b] := by
  simp only [mapO, h]

theorem mapO_pyIx_range (xs : List α) :
    ∀ n, n ≤ xs.length →
      mapO (pyIx xs) ((List.range n).map Int.ofNat) = some (xs.take n) := by
  intro n
  induction n with
  | zero => intro _; rfl
  | succ n ih =>
    intro h
    have hn : n < xs.length := by omega
    rw [List.range_succ, List.map_append, List.map_cons, List.map_nil,
      mapO_append (ih (by omega)) (mapO_singleton (pyIx_ofNat xs n hn)),
      List.take_succ, List.getElem?_eq_getElem hn]
    rfl

/-- The selection `array[np.ix_(rows)]` with
`rows = [0, 1, ..., m-2, -1]`: the first `m-1` elements plus the last. -/
theorem mapO_ixIndices (xs : List α) (d : α) (m : Nat) (h1 : 1 ≤ m)
    (h2 : m ≤ xs.length) :
    mapO (pyIx xs) (ixIndices m) = some (xs.take (m - 1) ++ [xs.getLastD d]) := by
  have hne : xs ≠ [] := by
    intro e
    rw [e] at h2
    simp at h2
    omega
  rw [ixIndices]
  exact mapO_append (mapO_pyIx_range xs (m - 1) (by omega))
    (mapO_singleton (pyIx_neg_one xs d hne))

/-! ## Behaviour of the real-input scalar simplifier -/

/-- The complex branch of `_nsimplify_improved`, with the `let`s
unfolded. -/
theorem _nsimplify_improved_cplx (oracle : Rat → Option Candidate) (zero_tol : Rat)
    (max_denom sig_digits : Nat) (a b : Rat) :
    _nsimplify_improved oracle zero_tol max_denom sig_digits (.cplx a b) =
      if (_nsimplify_real oracle zero_tol max_denom sig_digits b).isZero then
        _nsimplify_real oracle zero_tol max_denom sig_digits a
      else if (_nsimplify_real oracle zero_tol max_denom sig_digits a).isZero then
        _nsimplify_real oracle zero_tol max_denom sig_digits b
      else .complexSum (_nsimplify_real oracle zero_tol max_denom sig_digits a)
        (_nsimplify_real oracle zero_tol max_denom sig_digits b) := rfl

/-- Case analysis on `_nsimplify_real`: it returns the exact zero (and
then the input was below the tolerance), an accepted candidate (and then
the candidate re-evaluates within the tolerance of the input), or the
decimal fallback. -/
theorem _nsimplify_real_spec (oracle : Rat → Option Candidate) (zero_tol : Rat)
    (max_denom sig_digits : Nat) (v : Rat) :
    (_nsimplify_real oracle zero_tol max_denom sig_digits v = .exprZ ∧
        pyAbs v < zero_tol) ∨
    (∃ c, _nsimplify_real oracle zero_tol max_denom sig_digits v = .cand c ∧
      pyAbs (c.evalF - v) ≤ zero_tol) ∨
    _nsimplify_real oracle zero_tol max_denom sig_digits v = .decimal v sig_digits := by
  rw [_nsimplify_real]
  split
  · rename_i h
    exact Or.inl ⟨rfl, h⟩
  · split
    · exact Or.inr (Or.inr rfl)
    · split
      · exact Or.inr (Or.inr rfl)
      · split
        · exact Or.inr (Or.inr rfl)
        · split
          · exact Or.inr (Or.inr rfl)
          · split
            · exact Or.inr (Or.inr rfl)
            · rename_i heval _ _ _
              exact Or.inr (Or.inl ⟨_, rfl, not_lt.mp heval⟩)

/-- The gate on rationals: if `_nsimplify_real` accepts a candidate that
is a pure rational, its reduced denominator is at most `max_denom`. -/
theorem _nsimplify_real_rational_denom {oracle : Rat → Option Candidate}
    {zero_tol : Rat} {max_denom sig_digits : Nat} {v : Rat} {c : Candidate}
    (h : _nsimplify_real oracle zero_tol max_denom sig_digits v = .cand c)
    (hr : c.is_Rational = true) : c.q ≤ max_denom := by
  rw [_nsimplify_real] at h
  split at h
  · simp at h
  · split at h
    · simp at h
    · split at h
      · simp at h
      · split at h
        · simp at h
        · split at h
          · simp at h
          · split at h
            · simp at h
            · rename_i hq _ _
              injection h with h
              subst h
              exact Nat.le_of_not_lt fun hlt => hq ⟨hr, hlt⟩

/-- The accepted candidate `c` occurs in the returned expression (either
as the expression itself or as a component of a complex sum). -/
def candIn (c : Candidate) : SimpResult → Bool
  | .cand c' => c == c'
  | .complexSum re im => candIn c re || candIn c im
  | _ => false

/-- The function `_nsimplify_real` never returns a complex sum. -/
theorem _nsimplify_real_ne_complexSum (oracle : Rat → Option Candidate)
    (zero_tol : Rat) (max_denom sig_digits : Nat) (v : Rat) (re im : SimpResult) :
    _nsimplify_real oracle zero_tol max_denom sig_digits v ≠ .complexSum re im := by
  rcases _nsimplify_real_spec oracle zero_tol max_denom sig_digits v with
    ⟨h, _⟩ | ⟨c, h, _⟩ | h <;> rw [h] <;> simp

/-- A candidate occurring in the result of `_nsimplify_real` is the
accepted candidate of that call. -/
theorem candIn_real {oracle : Rat → Option Candidate} {zero_tol : Rat}
    {max_denom sig_digits : Nat} {v : Rat} {c : Candidate}
    (h : candIn c (_nsimplify_real oracle zero_tol max_denom sig_digits v) = true) :
    _nsimplify_real oracle zero_tol max_denom sig_digits v = .cand c := by
  cases hres : _nsimplify_real oracle zero_tol max_denom sig_digits v with
  | exprZ => rw [hres] at h; simp [candIn] at h
  | cand c' =>
    rw [hres] at h
    have : c = c' := by simpa [candIn] using h
    rw [this]
  | decimal u j => rw [hres] at h; simp [candIn] at h
  | complexSum re im => exact absurd hres (_nsimplify_real_ne_complexSum _ _ _ _ _ _ _)

/-! ## Claim C2 -/

/-- C2: for every real input `v` with `|v| < zero_tol`, the scalar
simplifier returns the exact integer zero — for every oracle, i.e.
without the symbolic search being consulted. -/
theorem C2_near_zero_snap (oracle : Rat → Option Candidate) (zero_tol : Rat)
    (max_denom sig_digits : Nat) (v : Rat) (h : pyAbs v < zero_tol) :
    _nsimplify_improved oracle zero_tol max_denom sig_digits (.real v) = .exprZ := by
  show _nsimplify_real oracle zero_tol max_denom sig_digits v = .exprZ
  rw [_nsimplify_real, if_pos h]

/-- Witness for C2 at the spec's example input `1e-16` and the default
parameters. -/
theorem C2_near_zero_snap_witness :
    pyAbs (mkRat 1 (10 ^ 16)) < ZERO_TOL ∧
      _nsimplify_improved oracleTwo ZERO_TOL MAX_DENOM SIG_DIGITS
        (.real (mkRat 1 (10 ^ 16))) = .exprZ :=
  ⟨by decide, C2_near_zero_snap oracleTwo ZERO_TOL MAX_DENOM SIG_DIGITS _ (by decide)⟩

/-! ## Claim C8 -/

/-- C8: a complex input with zero imaginary part simplifies to exactly
the result of simplifying its real part alone (the near-zero snap maps
the imaginary part to the symbolic zero, so the complex branch returns
the simplified real part). -/
theorem C8_complex_zero_imag (oracle : Rat → Option Candidate) (zero_tol : Rat)
    (max_denom sig_digits : Nat) (r : Rat) (h : 0 < zero_tol) :
    _nsimplify_improved oracle zero_tol max_denom sig_digits (.cplx r 0) =
      _nsimplify_improved oracle zero_tol max_denom sig_digits (.real r) := by
  have h0 : pyAbs (0 : Rat) < zero_tol := by
    rw [pyAbs_eq_abs]
    simpa using h
  have himag : _nsimplify_real oracle zero_tol max_denom sig_digits 0 = .exprZ := by
    rw [_nsimplify_real, if_pos h0]
  rw [_nsimplify_improved_cplx, himag]
  rfl

/-- Witness for C8 at the input `1.0 + 0.0j` from the spec's example,
with the default parameters. -/
theorem C8_complex_zero_imag_witness :
    (0 : Rat) < ZERO_TOL ∧
      _nsimplify_improved oracleTwo ZERO_TOL MAX_DENOM SIG_DIGITS (.cplx 1 0) =
        _nsimplify_improved oracleTwo ZERO_TOL MAX_DENOM SIG_DIGITS (.real 1) :=
  ⟨by decide, C8_complex_zero_imag oracleTwo ZERO_TOL MAX_DENOM SIG_DIGITS 1 (by decide)⟩

/-! ## Claim C7 -/

/-- C7: whenever the returned expression contains an accepted candidate
that is a pure rational, the candidate's reduced denominator is at most
`max_denom`. -/
theorem C7_rational_denominator_bound (oracle : Rat → Option Candidate)
    (zero_tol : Rat) (max_denom sig_digits : Nat) (v : PyNum) (c : Candidate)
    (h : candIn c (_nsimplify_improved oracle zero_tol max_denom sig_digits v) = true)
    (hr : c.is_Rational = true) : c.q ≤ max_denom := by
  cases v with
  | real u => exact _nsimplify_real_rational_denom (candIn_real h) hr
  | cplx a b =>
    rw [_nsimplify_improved_cplx] at h
    split at h
    · exact _nsimplify_real_rational_denom (candIn_real h) hr
    · split at h
      · exact _nsimplify_real_rational_denom (candIn_real h) hr
      · have hor :
            candIn c (_nsimplify_real oracle zero_tol max_denom sig_digits a) = true ∨
            candIn c (_nsimplify_real oracle zero_tol max_denom sig_digits b) = true := by
          simpa [candIn] using h
        rcases hor with hin | hin
        · exact _nsimplify_real_rational_denom (candIn_real hin) hr
        · exact _nsimplify_real_rational_denom (candIn_real hin) hr

unseal Rat.sub in
/-- Witness for C7: the oracle recognizing `2.0` as `Integer(2)`; the
accepted candidate has denominator `1 ≤ 10000`. -/
theorem C7_rational_denominator_bound_witness :
    candIn ⟨2, true, 2, 1, false, false⟩
        (_nsimplify_improved oracleTwo ZERO_TOL MAX_DENOM SIG_DIGITS (.real 2)) = true ∧
      (⟨2, true, 2, 1, false, false⟩ : Candidate).is_Rational = true ∧
      (⟨2, true, 2, 1, false, false⟩ : Candidate).q ≤ MAX_DENOM :=
  ⟨by decide, by decide,
    C7_rational_denominator_bound oracleTwo ZERO_TOL MAX_DENOM SIG_DIGITS (.real 2) _
      (by decide) (by decide)⟩

/-! ## Claim C1 -/

unseal Rat.sub Rat.add Rat.mul in
/-- C1 counterexample: the complex input `0.0 + 2.0j`.  The imaginary
part simplifies to `Integer(2)` and the real part to zero, so the complex
branch returns the bare imaginary coefficient `2` (dropping the factor
`I`): the returned expression evaluates to `2`, which is not within the
tolerance of `2j`, and it is not the decimal rounding of the input
either. -/
theorem C1_counterexample :
    ¬ C1Statement oracleTwo ZERO_TOL MAX_DENOM SIG_DIGITS (.cplx 0 2) := by
  intro hclaim
  have hres : _nsimplify_improved oracleTwo ZERO_TOL MAX_DENOM SIG_DIGITS (.cplx 0 2) =
      .cand ⟨2, true, 2, 1, false, false⟩ := by decide
  rcases hclaim with h | h
  · rcases h with ⟨p, hp, hle⟩
    rw [hres] at hp
    simp only [SimpResult.evalC, Option.some.injEq] at hp
    rw [← hp] at hle
    exact absurd hle (by decide)
  · rw [hres] at h
    simp [decimalRounding] at h

/-- C1, amended to real inputs: for every real input, the returned
expression evaluates within the tolerance of the input, or is the decimal
rounding of the input to `sig_digits` significant digits. -/
theorem C1_real_within_tol_or_decimal (oracle : Rat → Option Candidate)
    (zero_tol : Rat) (max_denom sig_digits : Nat) (v : Rat) :
    evalWithin (_nsimplify_improved oracle zero_tol max_denom sig_digits (.real v))
        (.real v) zero_tol ∨
      _nsimplify_improved oracle zero_tol max_denom sig_digits (.real v) =
        decimalRounding (.real v) sig_digits := by
  have heq : _nsimplify_improved oracle zero_tol max_denom sig_digits (.real v) =
      _nsimplify_real oracle zero_tol max_denom sig_digits v := rfl
  rcases _nsimplify_real_spec oracle zero_tol max_denom sig_digits v with
    ⟨h, htol⟩ | ⟨c, h, htol⟩ | h
  · rw [pyAbs_eq_abs] at htol
    refine Or.inl ⟨(0, 0), ?_, ?_⟩
    · rw [heq, h]; rfl
    · have habs : (0 : Rat) ≤ |v| := abs_nonneg v
      have hsq : |v| * |v| = v * v := abs_mul_abs_self v
      simp only [PyNum.re, PyNum.im]
      nlinarith
  · rw [pyAbs_eq_abs] at htol
    refine Or.inl ⟨(c.evalF, 0), ?_, ?_⟩
    · rw [heq, h]; rfl
    · have habs : (0 : Rat) ≤ |c.evalF - v| := abs_nonneg _
      have hsq : |c.evalF - v| * |c.evalF - v| = (c.evalF - v) * (c.evalF - v) :=
        abs_mul_abs_self _
      simp only [PyNum.re, PyNum.im]
      nlinarith
  · exact Or.inr (by rw [heq, h]; rfl)

/-! ## Claim C5 -/

/-- C5: an empty array, a string/object-dtype array, or an array of more
than two dimensions makes the array renderer return `None` — for every
oracle, i.e. without the scalar simplifier being invoked on any
element. -/
theorem C5_unsupported_arrays_null (oracle : Rat → Option Candidate)
    (zero_tol : Rat) (max_denom sig_digits : Nat) (a : NdArray) (w : Nat × Nat)
    (h : a.size = 0 ∨ a.strDtype = true ∨ 2 < a.ndim) :
    _nsimplify_matrix oracle zero_tol max_denom sig_digits a w = none := by
  rw [_nsimplify_matrix]
  rcases h with h | h | h
  · rw [if_pos h]
  · by_cases h0 : a.size = 0
    · rw [if_pos h0]
    · rw [if_neg h0, if_pos h]
  · by_cases h0 : a.size = 0
    · rw [if_pos h0]
    · rw [if_neg h0]
      by_cases h1 : a.strDtype = true
      · rw [if_pos h1]
      · rw [if_neg h1, if_pos h]

/-- Witness for C5 at the three inputs of the spec's example: an empty
array, an object-dtype array, and a 3-D array. -/
theorem C5_unsupported_arrays_null_witness :
    ((⟨false, .d1 []⟩ : NdArray).size = 0 ∨
        (⟨false, .d1 []⟩ : NdArray).strDtype = true ∨
        2 < (⟨false, .d1 []⟩ : NdArray).ndim) ∧
      _nsimplify_matrix oracleTwo ZERO_TOL MAX_DENOM SIG_DIGITS
        ⟨false, .d1 []⟩ TRUNCATE_TO = none ∧
      _nsimplify_matrix oracleTwo ZERO_TOL MAX_DENOM SIG_DIGITS
        ⟨true, .d1 [.real 1]⟩ TRUNCATE_TO = none ∧
      _nsimplify_matrix oracleTwo ZERO_TOL MAX_DENOM SIG_DIGITS
        ⟨false, .dHigher [2, 2, 2]⟩ TRUNCATE_TO = none :=
  ⟨Or.inl (by decide),
    C5_unsupported_arrays_null oracleTwo ZERO_TOL MAX_DENOM SIG_DIGITS
      ⟨false, .d1 []⟩ TRUNCATE_TO (Or.inl (by decide)),
    C5_unsupported_arrays_null oracleTwo ZERO_TOL MAX_DENOM SIG_DIGITS
      ⟨true, .d1 [.real 1]⟩ TRUNCATE_TO (Or.inr (Or.inl (by decide))),
    C5_unsupported_arrays_null oracleTwo ZERO_TOL MAX_DENOM SIG_DIGITS
      ⟨false, .dHigher [2, 2, 2]⟩ TRUNCATE_TO (Or.inr (Or.inr (by decide)))⟩

/-! ## Claim C9 -/

/-- C9: the render functions never raise outward.  The scalar renderer
always returns a string; the array renderer returns a string or the null
result; and when the symbolic search raises (the oracle returns `none`)
on an input not caught by the near-zero snap, the scalar simplifier
degrades to the decimal fallback. -/
theorem C9_never_raises (oracle : Rat → Option Candidate) (zero_tol : Rat)
    (max_denom sig_digits : Nat) (v : PyNum) (a : NdArray) (w : Nat × Nat) :
    (∃ e, _nsimplify_scalar oracle zero_tol max_denom sig_digits v = some e) ∧
    (_nsimplify_matrix oracle zero_tol max_denom sig_digits a w = none ∨
      ∃ r, _nsimplify_matrix oracle zero_tol max_denom sig_digits a w = some r) ∧
    (∀ u : Rat, zero_tol ≤ pyAbs u → oracle u = none →
      _nsimplify_real oracle zero_tol max_denom sig_digits u = .decimal u sig_digits) := by
  refine ⟨⟨_, rfl⟩, ?_, ?_⟩
  · cases h : _nsimplify_matrix oracle zero_tol max_denom sig_digits a w with
    | none => exact Or.inl rfl
    | some r => exact Or.inr ⟨r, rfl⟩
  · intro u hu hnone
    rw [_nsimplify_real, if_neg (not_lt.mpr hu), hnone]

/-- Witness for C9: a universally failing oracle, a scalar and an array
input; the inner degradation statement is discharged at the input `2`. -/
theorem C9_never_raises_witness :
    (∃ e, _nsimplify_scalar (fun _ => none) ZERO_TOL MAX_DENOM SIG_DIGITS
        (.real 2) = some e) ∧
      (_nsimplify_matrix (fun _ => none) ZERO_TOL MAX_DENOM SIG_DIGITS
          ⟨false, .d1 [.real 2]⟩ TRUNCATE_TO = none ∨
        ∃ r, _nsimplify_matrix (fun _ => none) ZERO_TOL MAX_DENOM SIG_DIGITS
          ⟨false, .d1 [.real 2]⟩ TRUNCATE_TO = some r) ∧
      _nsimplify_real (fun _ => none) ZERO_TOL MAX_DENOM SIG_DIGITS 2 =
        .decimal 2 SIG_DIGITS :=
  ⟨(C9_never_raises (fun _ => none) ZERO_TOL MAX_DENOM SIG_DIGITS
      (.real 2) ⟨false, .d1 [.real 2]⟩ TRUNCATE_TO).1,
    (C9_never_raises (fun _ => none) ZERO_TOL MAX_DENOM SIG_DIGITS
      (.real 2) ⟨false, .d1 [.real 2]⟩ TRUNCATE_TO).2.1,
    (C9_never_raises (fun _ => none) ZERO_TOL MAX_DENOM SIG_DIGITS
      (.real 2) ⟨false, .d1 [.real 2]⟩ TRUNCATE_TO).2.2 2 (by decide) rfl⟩

/-! ## Claim C4 -/

/-- C4 (code bug): for the empty array the underlying renderer returns
`None`, yet the registered `np.ndarray` handler still returns a string —
the f-string wraps the null result into `"$None$"` — instead of the null
signal that would defer to default formatting. -/
theorem C4_handler_wraps_none :
    _nsimplify_matrix (fun _ => none) ZERO_TOL MAX_DENOM SIG_DIGITS
        ⟨false, .d1 []⟩ TRUNCATE_TO = none ∧
      ndarray_handler (fun _ => none) ZERO_TOL MAX_DENOM SIG_DIGITS TRUNCATE_TO
        ⟨false, .d1 []⟩ = some ⟨none⟩ := by
  exact ⟨by decide, by decide⟩

/-! ## Claim C6 -/

/-- Evaluating `insertPos` at the nonnegative position `m - 1` (for `1 ≤ m ≤ n + 1`):
no clamping happens. -/
theorem insertPos_sub_one (m n : Nat) (h1 : 1 ≤ m) (h2 : m - 1 ≤ n) :
    insertPos ((m : Int) - 1) n = m - 1 := by
  rw [insertPos, if_neg (by omega : ¬ ((m : Int) - 1 < 0))]
  have ht : ((m : Int) - 1).toNat = m - 1 := by omega
  rw [ht]
  omega

/-- The 1-D branch of `_nsimplify_matrix` for a nonempty numeric vector,
with the guards discharged. -/
theorem _nsimplify_matrix_d1 (oracle : Rat → Option Candidate) (zero_tol : Rat)
    (max_denom sig_digits : Nat) (xs : List PyNum) (mc mr : Nat)
    (hne : xs.length ≠ 0) :
    _nsimplify_matrix oracle zero_tol max_denom sig_digits ⟨false, .d1 xs⟩ (mc, mr) =
      if mr < xs.length then
        match mapO (pyIx xs) (ixIndices mr) with
        | none => none
        | some sel =>
          (rowInsertM (sel.map fun x => [cellOf oracle zero_tol max_denom sig_digits x])
            ((mr : Int) - 1) [[V_ROWS]]).map .gridR
      else
        some (.gridR (xs.map fun x => [cellOf oracle zero_tol max_denom sig_digits x])) := by
  rw [_nsimplify_matrix,
    if_neg (by simpa [NdArray.size] using hne)]
  rfl

/-- The truncated-vector layout that claim C6 describes: the first
`R - 1` elements, a vertical-ellipsis row, then the last element. -/
def truncated1D (oracle : Rat → Option Candidate) (zero_tol : Rat)
    (max_denom sig_digits : Nat) (R : Nat) (xs : List PyNum) : List (List Cell) :=
  (xs.take (R - 1)).map (fun x => [cellOf oracle zero_tol max_denom sig_digits x]) ++
    [[V_ROWS]] ++ [[cellOf oracle zero_tol max_denom sig_digits (xs.getLastD (.real 0))]]

/-- C6: a 1-D numeric array longer than the row cap `R = w.2` is rendered
as its first `R - 1` elements, then a vertical-ellipsis row, then its
last element. -/
theorem C6_1d_truncation (oracle : Rat → Option Candidate) (zero_tol : Rat)
    (max_denom sig_digits : Nat) (xs : List PyNum) (w : Nat × Nat)
    (hR : 1 ≤ w.2) (hlen : w.2 < xs.length) :
    _nsimplify_matrix oracle zero_tol max_denom sig_digits ⟨false, .d1 xs⟩ w =
      some (.gridR (truncated1D oracle zero_tol max_denom sig_digits w.2 xs)) := by
  rcases w with ⟨mc, mr⟩
  rw [_nsimplify_matrix_d1 oracle zero_tol max_denom sig_digits xs mc mr (by omega),
    if_pos hlen,
    mapO_ixIndices xs (.real 0) mr hR (le_of_lt hlen)]
  show (rowInsertM
      ((xs.take (mr - 1) ++ [xs.getLastD (.real 0)]).map
        fun x => [cellOf oracle zero_tol max_denom sig_digits x])
      ((mr : Int) - 1) [[V_ROWS]]).map Render.gridR =
    some (.gridR (truncated1D oracle zero_tol max_denom sig_digits mr xs))
  rw [List.map_append]
  have hAlen :
      ((xs.take (mr - 1)).map
        (fun x => [cellOf oracle zero_tol max_denom sig_digits x])).length = mr - 1 := by
    simp only [List.length_map, List.length_take]
    omega
  have hhead :
      ((((xs.take (mr - 1)).map
          (fun x => [cellOf oracle zero_tol max_denom sig_digits x])) ++
        [xs.getLastD (.real 0)].map
          (fun x => [cellOf oracle zero_tol max_denom sig_digits x])).headD []).length = 1 := by
    cases htake : xs.take (mr - 1) with
    | nil => simp [htake]
    | cons y ys => simp [htake]
  rw [rowInsertM, if_neg (by rw [hhead]; simp)]
  have hglen :
      (((xs.take (mr - 1)).map
          (fun x => [cellOf oracle zero_tol max_denom sig_digits x])) ++
        [xs.getLastD (.real 0)].map
          (fun x => [cellOf oracle zero_tol max_denom sig_digits x])).length = mr := by
    simp only [List.length_append, List.length_map, List.length_take, List.length_singleton]
    omega
  rw [hglen, insertPos_sub_one mr mr hR (by omega),
    List.take_left' hAlen, List.drop_left' hAlen]
  rw [truncated1D]
  rfl

/-- Witness for C6 at the spec's example: the 1-D array `[0..9]` with row
cap 6 renders the elements `0..4`, an ellipsis row, and `9`. -/
theorem C6_1d_truncation_witness :
    1 ≤ (TRUNCATE_TO).2 ∧ (TRUNCATE_TO).2 < ((List.range 10).map (fun n => PyNum.real (n : Rat))).length ∧
      _nsimplify_matrix (fun _ => none) ZERO_TOL MAX_DENOM SIG_DIGITS
          ⟨false, .d1 ((List.range 10).map (fun n => PyNum.real (n : Rat)))⟩ TRUNCATE_TO =
        some (.gridR (truncated1D (fun _ => none) ZERO_TOL MAX_DENOM SIG_DIGITS
          (TRUNCATE_TO).2 ((List.range 10).map (fun n => PyNum.real (n : Rat))))) :=
  ⟨by decide, by decide,
    C6_1d_truncation (fun _ => none) ZERO_TOL MAX_DENOM SIG_DIGITS
      ((List.range 10).map (fun n => PyNum.real (n : Rat))) TRUNCATE_TO
      (by decide) (by decide)⟩

/-! ## Claim C3 -/

/-- The 2-D branch of `_nsimplify_matrix` for a nonempty numeric matrix,
with the guards discharged. -/
theorem _nsimplify_matrix_d2 (oracle : Rat → Option Candidate) (zero_tol : Rat)
    (max_denom sig_digits : Nat) (xss : List (List PyNum)) (mc mr : Nat)
    (hne : xss.length * (xss.headD []).length ≠ 0) :
    _nsimplify_matrix oracle zero_tol max_denom sig_digits ⟨false, .d2 xss⟩ (mc, mr) =
      if mc < xss.length ∧ mr < (xss.headD []).length then
        match mapO (pyIx xss) (ixIndices mr) with
        | none => none
        | some rsel =>
          match mapO (fun r => mapO (pyIx r) (ixIndices mc)) rsel with
          | none => none
          | some sub =>
            match rowInsertM
                (sub.map fun r => r.map (cellOf oracle zero_tol max_denom sig_digits))
                ((mr : Int) - 1)
                [[EMPTY_STR, EMPTY_STR, V_ROWS, EMPTY_STR, EMPTY_STR, EMPTY_STR]] with
            | none => none
            | some M2 =>
              (colInsertM M2 ((mc : Int) - 1)
                [EMPTY_STR, EMPTY_STR, H_ROWS, EMPTY_STR, EMPTY_STR, D_ROWS,
                  EMPTY_STR]).map .gridR
      else
        some (.gridR
          (xss.map fun r => r.map (cellOf oracle zero_tol max_denom sig_digits))) := by
  rw [_nsimplify_matrix, if_neg (by simpa [NdArray.size] using hne)]
  rfl

/-- Splicing one cell into a row made of a length-`n` prefix and a tail. -/
theorem append_single_insert (P Q : List Cell) (m : Cell) (n : Nat)
    (hP : P.length = n) :
    (P ++ Q).take n ++ [m] ++ (P ++ Q).drop n = P ++ [m] ++ Q := by
  rw [List.take_left' hP, List.drop_left' hP]

/-- A `row_insert` of a single row at position `5` into a six-row matrix:
it lands above the last row. -/
theorem rowInsertM_six (r0 r1 r2 r3 r4 r5 other0 : List Cell) (pos : Int)
    (hpos : insertPos pos 6 = 5) (hlen : other0.length = r0.length) :
    rowInsertM [r0, r1, r2, r3, r4, r5] pos [other0] =
      some [r0, r1, r2, r3, r4, other0, r5] := by
  rw [rowInsertM]
  split
  · rename_i hcond
    exact absurd (by simpa using hlen) hcond
  · show some (List.take (insertPos pos 6) [r0, r1, r2, r3, r4, r5] ++ [other0] ++
      List.drop (insertPos pos 6) [r0, r1, r2, r3, r4, r5]) = _
    rw [hpos]
    rfl

/-- A `col_insert` of a single column at position `5` into a seven-row
matrix: each row is spliced before its last element when the rows have
six cells. -/
theorem colInsertM_seven (g0 g1 g2 g3 g4 g5 g6 : List Cell)
    (c0 c1 c2 c3 c4 c5 c6 : Cell) (pos : Int)
    (hpos : insertPos pos g0.length = 5) :
    colInsertM [g0, g1, g2, g3, g4, g5, g6] pos [c0, c1, c2, c3, c4, c5, c6] =
      some [g0.take 5 ++ [c0] ++ g0.drop 5,
            g1.take 5 ++ [c1] ++ g1.drop 5,
            g2.take 5 ++ [c2] ++ g2.drop 5,
            g3.take 5 ++ [c3] ++ g3.drop 5,
            g4.take 5 ++ [c4] ++ g4.drop 5,
            g5.take 5 ++ [c5] ++ g5.drop 5,
            g6.take 5 ++ [c6] ++ g6.drop 5] := by
  rw [colInsertM]
  split
  · rename_i hcond
    simp at hcond
  · show some (List.zipWith
      (fun row x => row.take (insertPos pos g0.length) ++ [x] ++
        row.drop (insertPos pos g0.length))
      [g0, g1, g2, g3, g4, g5, g6] [c0, c1, c2, c3, c4, c5, c6]) = _
    rw [hpos]
    rfl

/-- The truncated 2-D layout that claim C3 describes (for the default
`6 × 6` window): the first five rows restricted to their first five
columns plus their last column with a blank (or, in the third row,
horizontal-ellipsis) spacer cell before it; then the inserted ellipsis
row with the diagonal ellipsis at the inserted-column intersection and
blanks elsewhere; then the last row, likewise restricted. -/
def truncated2D (oracle : Rat → Option Candidate) (zero_tol : Rat)
    (max_denom sig_digits : Nat) (xss : List (List PyNum)) : List (List Cell) :=
  List.zipWith
      (fun r m => (r.take 5).map (cellOf oracle zero_tol max_denom sig_digits) ++ [m] ++
        [cellOf oracle zero_tol max_denom sig_digits (r.getLastD (.real 0))])
      (xss.take 5) [EMPTY_STR, EMPTY_STR, H_ROWS, EMPTY_STR, EMPTY_STR] ++
    [[EMPTY_STR, EMPTY_STR, V_ROWS, EMPTY_STR, EMPTY_STR, D_ROWS, EMPTY_STR]] ++
    [((xss.getLastD []).take 5).map (cellOf oracle zero_tol max_denom sig_digits) ++
      [EMPTY_STR] ++
      [cellOf oracle zero_tol max_denom sig_digits
        ((xss.getLastD []).getLastD (.real 0))]]

/-- C3: a 2-D numeric array with both dimensions above the default caps
renders as the first five rows and columns plus the last row and column,
with the ellipsis row above the last row, the ellipsis column before the
last column, the diagonal ellipsis at their intersection, and the other
inserted spacer cells blank. -/
theorem C3_2d_truncation (oracle : Rat → Option Candidate) (zero_tol : Rat)
    (max_denom sig_digits : Nat) (xss : List (List PyNum))
    (h1 : 6 < xss.length) (h2 : ∀ r ∈ xss, r.length = (xss.headD []).length)
    (h3 : 6 < (xss.headD []).length) :
    _nsimplify_matrix oracle zero_tol max_denom sig_digits ⟨false, .d2 xss⟩ TRUNCATE_TO =
      some (.gridR (truncated2D oracle zero_tol max_denom sig_digits xss)) := by
  have hT : TRUNCATE_TO = (6, 6) := rfl
  rcases xss with _ | ⟨x0, xss⟩
  · simp at h1
  rcases xss with _ | ⟨x1, xss⟩
  · simp at h1
  rcases xss with _ | ⟨x2, xss⟩
  · simp at h1
  rcases xss with _ | ⟨x3, xss⟩
  · simp at h1
  rcases xss with _ | ⟨x4, xss⟩
  · simp at h1
  rcases xss with _ | ⟨x5, xss⟩
  · simp at h1
  rcases xss with _ | ⟨x6, xss⟩
  · simp at h1
  simp only [List.headD_cons] at h2 h3
  have hrow : ∀ r ∈ (x0 :: x1 :: x2 :: x3 :: x4 :: x5 :: x6 :: xss), 6 < r.length :=
    fun r hr => (h2 r hr) ▸ h3
  have hx0 : 6 < x0.length := hrow x0 (by simp)
  have hx1 : 6 < x1.length := hrow x1 (by simp)
  have hx2 : 6 < x2.length := hrow x2 (by simp)
  have hx3 : 6 < x3.length := hrow x3 (by simp)
  have hx4 : 6 < x4.length := hrow x4 (by simp)
  have hxne : (x0 :: x1 :: x2 :: x3 :: x4 :: x5 :: x6 :: xss) ≠ [] := by simp
  have hLmem : (x0 :: x1 :: x2 :: x3 :: x4 :: x5 :: x6 :: xss).getLastD [] ∈
      (x0 :: x1 :: x2 :: x3 :: x4 :: x5 :: x6 :: xss) := getLastD_mem _ [] hxne
  have hL : 6 < ((x0 :: x1 :: x2 :: x3 :: x4 :: x5 :: x6 :: xss).getLastD []).length :=
    hrow _ hLmem
  have hne : (x0 :: x1 :: x2 :: x3 :: x4 :: x5 :: x6 :: xss).length *
      ((x0 :: x1 :: x2 :: x3 :: x4 :: x5 :: x6 :: xss).headD []).length ≠ 0 :=
    Nat.mul_ne_zero (by simp) (by simp only [List.headD_cons]; omega)
  have hsel : mapO (pyIx (x0 :: x1 :: x2 :: x3 :: x4 :: x5 :: x6 :: xss)) (ixIndices 6) =
      some ((x0 :: x1 :: x2 :: x3 :: x4 :: x5 :: x6 :: xss).take 5 ++
        [(x0 :: x1 :: x2 :: x3 :: x4 :: x5 :: x6 :: xss).getLastD []]) :=
    mapO_ixIndices _ [] 6 (by omega) (by simp)
  have hinner : mapO (fun r => mapO (pyIx r) (ixIndices 6))
      ((x0 :: x1 :: x2 :: x3 :: x4 :: x5 :: x6 :: xss).take 5 ++
        [(x0 :: x1 :: x2 :: x3 :: x4 :: x5 :: x6 :: xss).getLastD []]) =
      some (((x0 :: x1 :: x2 :: x3 :: x4 :: x5 :: x6 :: xss).take 5 ++
          [(x0 :: x1 :: x2 :: x3 :: x4 :: x5 :: x6 :: xss).getLastD []]).map
        (fun r => r.take 5 ++ [r.getLastD (.real 0)])) := by
    refine mapO_eq_map ?_
    intro r hr
    have hmem : r ∈ (x0 :: x1 :: x2 :: x3 :: x4 :: x5 :: x6 :: xss) := by
      rcases List.mem_append.mp hr with h | h
      · exact List.mem_of_mem_take h
      · rw [List.mem_singleton.mp h]
        exact hLmem
    have := hrow r hmem
    exact mapO_ixIndices r (.real 0) 6 (by omega) (by omega)
  rw [hT, _nsimplify_matrix_d2 oracle zero_tol max_denom sig_digits _ 6 6 hne,
    if_pos ⟨by simp, by simp only [List.headD_cons]; omega⟩]
  simp only [hsel, hinner]
  simp only [List.take_succ_cons, List.take_zero, List.map_append, List.map_cons,
    List.map_nil, List.cons_append, List.nil_append]
  have ht0 : (x0.take 5).length = 5 := by simp only [List.length_take]; omega
  have ht1 : (x1.take 5).length = 5 := by simp only [List.length_take]; omega
  have ht2 : (x2.take 5).length = 5 := by simp only [List.length_take]; omega
  have ht3 : (x3.take 5).length = 5 := by simp only [List.length_take]; omega
  have ht4 : (x4.take 5).length = 5 := by simp only [List.length_take]; omega
  have htL : (((x0 :: x1 :: x2 :: x3 :: x4 :: x5 :: x6 :: xss).getLastD []).take 5).length = 5 := by
    simp only [List.length_take]
    omega
  have hip : insertPos (((6 : Nat) : Int) - 1) 6 = 5 :=
    insertPos_sub_one 6 6 (by omega) (by omega)
  have hlen6 : ([EMPTY_STR, EMPTY_STR, V_ROWS, EMPTY_STR, EMPTY_STR, EMPTY_STR] :
      List Cell).length =
      (List.map (cellOf oracle zero_tol max_denom sig_digits) (x0.take 5) ++
        [cellOf oracle zero_tol max_denom sig_digits (x0.getLastD (.real 0))]).length := by
    simp only [List.length_append, List.length_map, List.length_cons, List.length_nil, ht0]
  simp only [rowInsertM_six _ _ _ _ _ _ _ _ hip hlen6]
  have hg0 : (List.map (cellOf oracle zero_tol max_denom sig_digits) (x0.take 5) ++
      [cellOf oracle zero_tol max_denom sig_digits (x0.getLastD (.real 0))]).length = 6 := by
    simp only [List.length_append, List.length_map, List.length_cons, List.length_nil, ht0]
  have hipcol : insertPos (((6 : Nat) : Int) - 1)
      (List.map (cellOf oracle zero_tol max_denom sig_digits) (x0.take 5) ++
        [cellOf oracle zero_tol max_denom sig_digits (x0.getLastD (.real 0))]).length = 5 := by
    rw [hg0]
    exact hip
  simp only [colInsertM_seven _ _ _ _ _ _ _ _ _ _ _ _ _ _ _ hipcol]
  have hP0 : (List.map (cellOf oracle zero_tol max_denom sig_digits) (x0.take 5)).length = 5 := by
    simp only [List.length_map, ht0]
  have hP1 : (List.map (cellOf oracle zero_tol max_denom sig_digits) (x1.take 5)).length = 5 := by
    simp only [List.length_map, ht1]
  have hP2 : (List.map (cellOf oracle zero_tol max_denom sig_digits) (x2.take 5)).length = 5 := by
    simp only [List.length_map, ht2]
  have hP3 : (List.map (cellOf oracle zero_tol max_denom sig_digits) (x3.take 5)).length = 5 := by
    simp only [List.length_map, ht3]
  have hP4 : (List.map (cellOf oracle zero_tol max_denom sig_digits) (x4.take 5)).length = 5 := by
    simp only [List.length_map, ht4]
  have hPL : (List.map (cellOf oracle zero_tol max_denom sig_digits)
      (((x0 :: x1 :: x2 :: x3 :: x4 :: x5 :: x6 :: xss).getLastD []).take 5)).length = 5 := by
    simp only [List.length_map, htL]
  rw [append_single_insert _ _ _ _ hP0, append_single_insert _ _ _ _ hP1,
    append_single_insert _ _ _ _ hP2, append_single_insert _ _ _ _ hP3,
    append_single_insert _ _ _ _ hP4, append_single_insert _ _ _ _ hPL]
  rw [truncated2D]
  simp only [List.take_succ_cons, List.take_zero, List.zipWith_cons_cons,
    List.zipWith_nil_right, List.headD_cons]
  rfl

/-- Witness for C3 at the spec's example: an 8×8 array of zeros with the
default caps. -/
theorem C3_2d_truncation_witness :
    6 < (List.replicate 8 (List.replicate 8 (PyNum.real 0))).length ∧
      (∀ r ∈ List.replicate 8 (List.replicate 8 (PyNum.real 0)),
        r.length = ((List.replicate 8 (List.replicate 8 (PyNum.real 0))).headD []).length) ∧
      6 < ((List.replicate 8 (List.replicate 8 (PyNum.real 0))).headD []).length ∧
      _nsimplify_matrix (fun _ => none) ZERO_TOL MAX_DENOM SIG_DIGITS
          ⟨false, .d2 (List.replicate 8 (List.replicate 8 (PyNum.real 0)))⟩ TRUNCATE_TO =
        some (.gridR (truncated2D (fun _ => none) ZERO_TOL MAX_DENOM SIG_DIGITS
          (List.replicate 8 (List.replicate 8 (PyNum.real 0))))) :=
  ⟨by decide, by decide, by decide,
    C3_2d_truncation (fun _ => none) ZERO_TOL MAX_DENOM SIG_DIGITS
      (List.replicate 8 (List.replicate 8 (PyNum.real 0)))
      (by decide) (by decide) (by decide)⟩

/-! ## Claim C10 -/

theorem ixIndices_length (m : Nat) : (ixIndices m).length = (m - 1) + 1 := by
  simp [ixIndices]

/-- The clamped insertion position never exceeds the length. -/
theorem insertPos_le (pos : Int) (n : Nat) : insertPos pos n ≤ n := by
  rw [insertPos]
  split <;> omega

/-- A successful `row_insert` passed its shape check. -/
theorem rowInsertM_some_cols {g : List (List Cell)} {pos : Int}
    {other M2 : List (List Cell)} (h : rowInsertM g pos other = some M2) :
    (other.headD []).length = (g.headD []).length := by
  rw [rowInsertM] at h
  split at h
  · simp at h
  · rename_i hcond
    exact not_ne_iff.mp hcond

/-- A successful `row_insert` adds the inserted rows to the row count. -/
theorem rowInsertM_some_length {g : List (List Cell)} {pos : Int}
    {other M2 : List (List Cell)} (h : rowInsertM g pos other = some M2) :
    M2.length = g.length + other.length := by
  have hle := insertPos_le pos g.length
  rw [rowInsertM] at h
  split at h
  · simp at h
  · injection h with h
    rw [← h]
    simp only [List.length_append, List.length_take, List.length_drop]
    omega

/-- A successful `col_insert` passed its shape check. -/
theorem colInsertM_some_length {g : List (List Cell)} {pos : Int}
    {col : List Cell} {G : List (List Cell)} (h : colInsertM g pos col = some G) :
    col.length = g.length := by
  rw [colInsertM] at h
  split at h
  · simp at h
  · rename_i hcond
    exact not_ne_iff.mp hcond

/-- C10: on a 2-D array whose dimensions both exceed the caps, any
truncation window other than the default `(6, 6)` makes the renderer
return the null result: the inserted ellipsis row and column are
hard-coded to six and seven cells, so the shape check of one of the two
inserts fails (or the selection itself fails), and the exception is
converted to `None`. -/
theorem C10_nondefault_window_null (oracle : Rat → Option Candidate)
    (zero_tol : Rat) (max_denom sig_digits : Nat) (xss : List (List PyNum))
    (mc mr : Nat) (hw : ¬(mc = 6 ∧ mr = 6)) (hc : mc < xss.length)
    (hr : mr < (xss.headD []).length) :
    _nsimplify_matrix oracle zero_tol max_denom sig_digits ⟨false, .d2 xss⟩ (mc, mr) =
      none := by
  have hne : xss.length * (xss.headD []).length ≠ 0 :=
    Nat.mul_ne_zero (by omega) (by omega)
  rw [_nsimplify_matrix_d2 oracle zero_tol max_denom sig_digits xss mc mr hne,
    if_pos ⟨hc, hr⟩]
  cases hsel : mapO (pyIx xss) (ixIndices mr) with
  | none => rfl
  | some rsel =>
    cases hsub : mapO (fun r => mapO (pyIx r) (ixIndices mc)) rsel with
    | none => simp only [hsub]
    | some sub =>
      simp only [hsub]
      have hrsel_len : rsel.length = (mr - 1) + 1 := by
        rw [mapO_length hsel, ixIndices_length]
      cases rsel with
      | nil => simp at hrsel_len
      | cons r0 rsel' =>
        obtain ⟨s0, sub', hfr0, hrest, rfl⟩ := mapO_cons_some hsub
        have hs0 : s0.length = (mc - 1) + 1 := by
          rw [mapO_length hfr0, ixIndices_length]
        cases hins : rowInsertM
            ((s0 :: sub').map fun r => r.map (cellOf oracle zero_tol max_denom sig_digits))
            ((mr : Int) - 1)
            [[EMPTY_STR, EMPTY_STR, V_ROWS, EMPTY_STR, EMPTY_STR, EMPTY_STR]] with
        | none => rfl
        | some M2 =>
          have hmc : mc = 6 := by
            have h6 := rowInsertM_some_cols hins
            simp only [List.headD_cons, List.map_cons, List.length_cons, List.length_nil,
              List.length_map, hs0] at h6
            omega
          have hM2len : M2.length = ((mr - 1) + 1) + 1 := by
            have hl := rowInsertM_some_length hins
            have hsub_len : (s0 :: sub').length = (r0 :: rsel').length :=
              mapO_length hsub
            simp only [List.length_map, List.length_cons,
              List.length_nil] at hl hsub_len hrsel_len ⊢
            omega
          show (colInsertM M2 ((mc : Int) - 1)
            [EMPTY_STR, EMPTY_STR, H_ROWS, EMPTY_STR, EMPTY_STR, D_ROWS,
              EMPTY_STR]).map Render.gridR = none
          cases hcol : colInsertM M2 ((mc : Int) - 1)
              [EMPTY_STR, EMPTY_STR, H_ROWS, EMPTY_STR, EMPTY_STR, D_ROWS, EMPTY_STR] with
          | none => rfl
          | some G =>
            exfalso
            have h7 := colInsertM_some_length hcol
            rw [hM2len] at h7
            simp only [List.length_cons, List.length_nil] at h7
            exact hw ⟨hmc, by omega⟩

/-- Witness for C10: a 6×6 array of zeros with the window `(5, 5)` (both
dimensions exceed the caps) renders to the null result. -/
theorem C10_nondefault_window_null_witness :
    ¬((5 : Nat) = 6 ∧ (5 : Nat) = 6) ∧
      5 < (List.replicate 6 (List.replicate 6 (PyNum.real 0))).length ∧
      5 < ((List.replicate 6 (List.replicate 6 (PyNum.real 0))).headD []).length ∧
      _nsimplify_matrix (fun _ => none) ZERO_TOL MAX_DENOM SIG_DIGITS
        ⟨false, .d2 (List.replicate 6 (List.replicate 6 (PyNum.real 0)))⟩ (5, 5) = none :=
  ⟨by decide, by decide, by decide,
    C10_nondefault_window_null (fun _ => none) ZERO_TOL MAX_DENOM SIG_DIGITS
      (List.replicate 6 (List.replicate 6 (PyNum.real 0))) 5 5
      (by decide) (by decide) (by decide)⟩

end Formatter
